import Mathlib

/-
  Verification of the NHL daily-fantasy genetic algorithm
  (src/genetic_algorithm.py, class GeneticNHL).

  Shallow embedding conventions:
  - a Python player dict becomes the structure Player; salaries are integers
    and projected points are rationals;
  - a lineup is a list of entries, where an entry is either a player record or
    a numeric scalar (the cost/score fields appended by check_valid); Python
    raises TypeError when a scalar is indexed like a dict, modelled by the
    err result of check_valid;
  - the random source is modelled as a list of naturals: the call
    random.randint(0, len(pool) - 1) consumes the head h of the stream and
    yields h % len(pool) (an empty stream defaults to 0, and randint on an
    empty pool raises, modelled by none);
  - the unbounded recursive retry in generate_lineup / mate_lineups is given
    explicit fuel; exhausted fuel returns none, modelling nontermination;
  - wall-clock time in run() is modelled by the number k of completed loop
    iterations (rounds);
  - python round(x, 2) is modelled by round2, rounding 100*x to the nearest
    integer and dividing by 100.
-/

namespace GeneticNHL

/-- One player record, from the dict built in load_roster:
    name = row[11], position = row[14][0], salary = int(row[15]),
    teamAbbrev = row[17], avePoints = float(row[18]). -/
structure Player where
  name : String
  position : Char
  salary : ℤ
  teamAbbrev : String
  avePoints : ℚ
  deriving DecidableEq

/-- A slot of a lineup list: a player dict or one of the numeric fields
    appended by check_valid (salary, projection). -/
inductive Entry where
  | player (p : Player)
  | num (q : ℚ)
  deriving DecidableEq

/-- Result of check_valid: err models the TypeError raised when an entry of
    the list is not a player dict, rejected models the falsy return False,
    accepted carries the extended lineup. -/
inductive VResult where
  | err
  | rejected
  | accepted (l : List Entry)
  deriving DecidableEq

/-- Rational addition written through Rat.divInt so that it evaluates by
    kernel reduction (the library Rat.add is marked irreducible); proven
    equal to the library addition below. -/
def qAdd (a b : ℚ) : ℚ :=
  Rat.divInt (a.num * (b.den : ℤ) + b.num * (a.den : ℤ)) ((a.den : ℤ) * (b.den : ℤ))

/-- Rational multiplication written through Rat.divInt, likewise. -/
def qMul (a b : ℚ) : ℚ := Rat.divInt (a.num * b.num) ((a.den : ℤ) * (b.den : ℤ))

/-- Python sum() over rationals: a left fold of addition starting at 0. -/
def qsum (l : List ℚ) : ℚ := l.foldl qAdd 0

lemma qAdd_eq (a b : ℚ) : qAdd a b = a + b := by
  conv_rhs => rw [← Rat.num_divInt_den a, ← Rat.num_divInt_den b]
  rw [Rat.divInt_add_divInt _ _
    (Int.natCast_ne_zero.mpr a.den_nz) (Int.natCast_ne_zero.mpr b.den_nz)]
  rfl

lemma qMul_eq (a b : ℚ) : qMul a b = a * b := by
  conv_rhs => rw [← Rat.num_divInt_den a, ← Rat.num_divInt_den b]
  rw [Rat.divInt_mul_divInt']
  rfl

lemma qsum_eq (l : List ℚ) : qsum l = l.sum := by
  have hf : qAdd = (· + ·) := funext fun a => funext fun b => qAdd_eq a b
  rw [qsum, hf, List.sum_eq_foldl]

/-- Python round(x, 2): x is scaled by 100, rounded to the nearest integer
    (floor of x + 1/2) and scaled back. Spelled with Rat.divInt, Rat.floor
    and the computable arithmetic so that it evaluates by kernel
    reduction. -/
def round2 (q : ℚ) : ℚ :=
  Rat.divInt (Rat.floor (qAdd (qMul 100 q) (Rat.divInt 1 2))) 100

/-- Extract the player dicts of a lineup; none as soon as one entry is a
    numeric field, since iterating player['avePoints'] over such a list
    raises TypeError in Python. -/
def playersOfEntries : List Entry → Option (List Player)
  | [] => some []
  | Entry.player p :: rest => (playersOfEntries rest).map (fun ps => p :: ps)
  | Entry.num _ :: _ => none

/-- The acceptance condition of check_valid, spelled on the list of player
    records: salary under the cap, at least 3 distinct teams, exactly 9
    distinct player names. -/
abbrev lineupCond (ps : List Player) : Prop :=
  (ps.map Player.salary).sum < 50000 ∧
    3 ≤ ((ps.map Player.teamAbbrev).dedup).length ∧
    ((ps.map Player.name).dedup).length = 9

/-- GeneticNHL.check_valid: computes the projection (rounded to 2 decimals),
    the salary, the set of teams and the number of distinct player names,
    accepts iff salary < 50000 and len(teams) >= 3 and num_players == 9, and
    on acceptance extends the lineup with (salary, projection). -/
def check_valid (lineup : List Entry) : VResult :=
  match playersOfEntries lineup with
  | none => VResult.err
  | some ps =>
    if (ps.map Player.salary).sum < 50000 ∧
        3 ≤ ((ps.map Player.teamAbbrev).dedup).length ∧
        ((ps.map Player.name).dedup).length = 9 then
      VResult.accepted (lineup ++
        [Entry.num (((ps.map Player.salary).sum : ℤ) : ℚ),
         Entry.num (round2 (qsum (ps.map Player.avePoints)))])
    else VResult.rejected

lemma playersOfEntries_map (ps : List Player) :
    playersOfEntries (ps.map Entry.player) = some ps := by
  induction ps with
  | nil => rfl
  | cons p rest ih => simp [playersOfEntries, ih]

lemma check_valid_accept_of (ps : List Player) (h : lineupCond ps) :
    check_valid (ps.map Entry.player) =
      VResult.accepted (ps.map Entry.player ++
        [Entry.num (((ps.map Player.salary).sum : ℤ) : ℚ),
         Entry.num (round2 (qsum (ps.map Player.avePoints)))]) := by
  unfold check_valid
  rw [playersOfEntries_map]
  exact if_pos h

lemma check_valid_reject_of (ps : List Player) (h : ¬ lineupCond ps) :
    check_valid (ps.map Entry.player) = VResult.rejected := by
  unfold check_valid
  rw [playersOfEntries_map]
  exact if_neg h

/-- C1: check_valid accepts a 9-player candidate iff its summed salary is
    strictly below 50000, it spans at least 3 distinct team codes, and its 9
    player names are pairwise distinct; on acceptance it returns the original
    9 players with the total salary and the rounded total projection appended
    as trailing fields, in that order; otherwise it rejects. -/
theorem check_valid_spec (ps : List Player) (h9 : ps.length = 9) :
    (lineupCond ps →
      check_valid (ps.map Entry.player) =
        VResult.accepted (ps.map Entry.player ++
          [Entry.num (((ps.map Player.salary).sum : ℤ) : ℚ),
           Entry.num (round2 (qsum (ps.map Player.avePoints)))])) ∧
    (¬ lineupCond ps → check_valid (ps.map Entry.player) = VResult.rejected) :=
  ⟨fun h => check_valid_accept_of ps h, fun h => check_valid_reject_of ps h⟩

/-- C8: when the acceptance condition fails on a 9-player candidate,
    check_valid signals failure by returning the bare rejection marker: no
    cost/score fields are appended (the accepted constructor is the only one
    carrying an extended lineup), and since the embedding of check_valid is a
    function of the candidate alone, mirroring a method body that reads no
    attribute of self, the player pool sequences are untouched. -/
theorem check_valid_reject (ps : List Player) (h9 : ps.length = 9)
    (h : ¬ lineupCond ps) :
    check_valid (ps.map Entry.player) = VResult.rejected :=
  check_valid_reject_of ps h

/-- The five positional pools held by a GeneticNHL object after load_roster:
    goalies, centers, wingers, defencemen and the utility-eligible players. -/
structure Pools where
  goalies : List Player
  centers : List Player
  wingers : List Player
  defencemen : List Player
  utils : List Player
  deriving DecidableEq

/-- pool[random.randint(0, len(pool) - 1)]: consumes one number from the
    random stream and indexes the pool with it modulo the pool length; on an
    empty pool randint(0, -1) raises, modelled by none. -/
def pickPool {α : Type} (pool : List α) (rng : List ℕ) : Option (α × List ℕ) :=
  match pool with
  | [] => none
  | a :: as => some ((a :: as).getD (rng.headD 0 % (a :: as).length) a, rng.tail)

/-- GeneticNHL.generate_lineup: draw one random player for each of the nine
    fixed slots (C, C, W, W, W, D, D, G, UTIL), check validity and return the
    validated lineup, retrying from scratch when check_valid rejects. The
    fuel argument bounds the recursion depth of the unbounded Python retry. -/
def generate_lineup (p : Pools) : ℕ → List ℕ → Option (List Entry × List ℕ)
  | 0, _ => none
  | fuel + 1, rng => do
    let (c1, rng) ← pickPool p.centers rng
    let (c2, rng) ← pickPool p.centers rng
    let (w1, rng) ← pickPool p.wingers rng
    let (w2, rng) ← pickPool p.wingers rng
    let (w3, rng) ← pickPool p.wingers rng
    let (d1, rng) ← pickPool p.defencemen rng
    let (d2, rng) ← pickPool p.defencemen rng
    let (g1, rng) ← pickPool p.goalies rng
    let (u1, rng) ← pickPool p.utils rng
    let lineup : List Entry :=
      [Entry.player c1, Entry.player c2, Entry.player w1, Entry.player w2,
       Entry.player w3, Entry.player d1, Entry.player d2, Entry.player g1,
       Entry.player u1]
    match check_valid lineup with
    | VResult.accepted l => some (l, rng)
    | VResult.rejected => generate_lineup p fuel rng
    | VResult.err => none

/-- The inner helper grab_players of mate_lineups: repeatedly pick a random
    index of the positional candidate pool, append that element to the chosen
    list and delete it from the pool, until n players are chosen. -/
def grab_players {α : Type} : List α → ℕ → List ℕ → Option (List α × List α × List ℕ)
  | pool, 0, rng => some ([], pool, rng)
  | pool, n + 1, rng =>
    match pool with
    | [] => none
    | a :: as =>
      let i := rng.headD 0 % (a :: as).length
      match grab_players ((a :: as).eraseIdx i) n rng.tail with
      | none => none
      | some (cs, rem, r) => some ((a :: as).getD i a :: cs, rem, r)

/-- The centers candidate pool of mate_lineups: both parents' center slots
    plus one extra random center; also returns the extra draw. -/
def centersPool (p : Pools) (lineup1 lineup2 : List Entry) (rng : List ℕ) :
    Option (List Entry × Player × List ℕ) := do
  let c0 ← lineup1[0]?
  let c1 ← lineup1[1]?
  let c2 ← lineup2[0]?
  let c3 ← lineup2[1]?
  let (ec, rng) ← pickPool p.centers rng
  some ([c0, c1, c2, c3, Entry.player ec], ec, rng)

/-- The wingers candidate pool of mate_lineups. -/
def wingersPool (p : Pools) (lineup1 lineup2 : List Entry) (rng : List ℕ) :
    Option (List Entry × Player × List ℕ) := do
  let w0 ← lineup1[2]?
  let w1 ← lineup1[3]?
  let w2 ← lineup1[4]?
  let w3 ← lineup2[2]?
  let w4 ← lineup2[3]?
  let w5 ← lineup2[4]?
  let (ew, rng) ← pickPool p.wingers rng
  some ([w0, w1, w2, w3, w4, w5, Entry.player ew], ew, rng)

/-- The defencemen candidate pool of mate_lineups. -/
def defencemenPool (p : Pools) (lineup1 lineup2 : List Entry) (rng : List ℕ) :
    Option (List Entry × Player × List ℕ) := do
  let d0 ← lineup1[5]?
  let d1 ← lineup1[6]?
  let d2 ← lineup2[5]?
  let d3 ← lineup2[6]?
  let (ed, rng) ← pickPool p.defencemen rng
  some ([d0, d1, d2, d3, Entry.player ed], ed, rng)

/-- The goalies candidate pool of mate_lineups. -/
def goaliesPool (p : Pools) (lineup1 lineup2 : List Entry) (rng : List ℕ) :
    Option (List Entry × Player × List ℕ) := do
  let g0 ← lineup1[7]?
  let g1 ← lineup2[7]?
  let (eg, rng) ← pickPool p.goalies rng
  some ([g0, g1, Entry.player eg], eg, rng)

/-- The utility candidate pool of mate_lineups. -/
def utilsPool (p : Pools) (lineup1 lineup2 : List Entry) (rng : List ℕ) :
    Option (List Entry × Player × List ℕ) := do
  let u0 ← lineup1[8]?
  let u1 ← lineup2[8]?
  let (eu, rng) ← pickPool p.utils rng
  some ([u0, u1, Entry.player eu], eu, rng)

/-- One attempt of GeneticNHL.mate_lineups, before validation: build the five
    per-role candidate pools from the parents' slots plus one extra random
    player per role (in the source order centers, wingers, defencemen,
    goalies, utils), then sample without replacement 2 centers, 3 wingers,
    2 defencemen, 1 goalie and 1 utility via grab_players. Returns the 9-slot
    candidate, the list of the five extra draws and the remaining stream. -/
def mateAttempt (p : Pools) (lineup1 lineup2 : List Entry) (rng : List ℕ) :
    Option (List Entry × List Entry × List ℕ) := do
  let (centers, ec, rng) ← centersPool p lineup1 lineup2 rng
  let (wingers, ew, rng) ← wingersPool p lineup1 lineup2 rng
  let (defencemen, ed, rng) ← defencemenPool p lineup1 lineup2 rng
  let (goalies, eg, rng) ← goaliesPool p lineup1 lineup2 rng
  let (utils, eu, rng) ← utilsPool p lineup1 lineup2 rng
  let (cs, _, rng) ← grab_players centers 2 rng
  let (ws, _, rng) ← grab_players wingers 3 rng
  let (ds, _, rng) ← grab_players defencemen 2 rng
  let (gs, _, rng) ← grab_players goalies 1 rng
  let (us, _, rng) ← grab_players utils 1 rng
  some (cs ++ ws ++ ds ++ gs ++ us,
    [Entry.player ec, Entry.player ew, Entry.player ed, Entry.player eg, Entry.player eu],
    rng)

/-- GeneticNHL.mate_lineups: one mating attempt followed by check_valid; on
    rejection run mate again on the same two parents with fresh randomness.
    The fuel argument bounds the unbounded Python retry recursion. -/
def mate_lineups (p : Pools) (lineup1 lineup2 : List Entry) :
    ℕ → List ℕ → Option (List Entry × List ℕ)
  | 0, _ => none
  | fuel + 1, rng =>
    match mateAttempt p lineup1 lineup2 rng with
    | none => none
    | some (cand, _, rng') =>
      match check_valid cand with
      | VResult.accepted l => some (l, rng')
      | VResult.rejected => mate_lineups p lineup1 lineup2 fuel rng'
      | VResult.err => none

/-- The sort key used by both sorts in the source: x[-1], the last field of
    the lineup (its projected score once validated). -/
def scoreKey (l : List Entry) : ℚ :=
  match l.getLast? with
  | some (Entry.num q) => q
  | _ => 0

/-- lineups.sort(key=lambda x: x[-1], reverse=True): a stable descending sort
    by the trailing score field. Python list.sort is a stable sort, and a
    stable sort by a total preorder has a unique result, so insertion sort
    with the reversed comparison is extensionally the same function. -/
def sortByScoreDesc (ls : List (List Entry)) : List (List Entry) :=
  ls.insertionSort (fun a b => scoreKey b ≤ scoreKey a)

/-- The batch comprehension [self.generate_lineup() for _ in range(n)]. -/
def genN (p : Pools) (fuel : ℕ) : ℕ → List ℕ → Option (List (List Entry) × List ℕ)
  | 0, rng => some ([], rng)
  | n + 1, rng => do
    let (l, rng) ← generate_lineup p fuel rng
    let (ls, rng) ← genN p fuel n rng
    some (l :: ls, rng)

/-- GeneticNHL.get_lineups: generate 10 fresh lineups, sort the batch by
    descending score, append the top three to the population, append the
    three pairwise matings of the top three, then append four more fresh
    lineups. -/
def get_lineups (p : Pools) (fuel : ℕ) (lineups : List (List Entry))
    (rng : List ℕ) : Option (List (List Entry) × List ℕ) := do
  let (newLineups, rng) ← genN p fuel 10 rng
  match sortByScoreDesc newLineups with
  | a :: b :: c :: _ => do
    let (m1, rng) ← mate_lineups p a b fuel rng
    let (m2, rng) ← mate_lineups p a c fuel rng
    let (m3, rng) ← mate_lineups p b c fuel rng
    let (f1, rng) ← generate_lineup p fuel rng
    let (f2, rng) ← generate_lineup p fuel rng
    let (f3, rng) ← generate_lineup p fuel rng
    let (f4, rng) ← generate_lineup p fuel rng
    some (lineups ++ [a, b, c, m1, m2, m3, f1, f2, f3, f4], rng)
  | _ => none

/-- GeneticNHL.run: the while loop runs get_lineups, then sorts the whole
    population by descending score and truncates it to num_lineups, once per
    iteration until the wall-clock deadline. Time is modelled by the number k
    of completed iterations. -/
def runRounds (p : Pools) (numLineups fuel : ℕ) :
    ℕ → List (List Entry) → List ℕ → Option (List (List Entry) × List ℕ)
  | 0, lineups, rng => some (lineups, rng)
  | k + 1, lineups, rng => do
    let (ls, rng) ← get_lineups p fuel lineups rng
    runRounds p numLineups fuel k ((sortByScoreDesc ls).take numLineups) rng

/-- One raw CSV record of the roster source, restricted to the five columns
    load_roster reads, with the numeric columns already parsed (parse errors
    are load failures outside the scope of the modelled claims). The position
    column keeps its full textual role descriptor. -/
structure RawRow where
  name : String
  position : String
  salary : ℤ
  teamAbbrev : String
  avePoints : ℚ
  deriving DecidableEq

/-- The player record a row is mapped to: the stored position is the first
    character of the role descriptor, row[14][0]; a default character stands
    in for the empty descriptor, on which the source would raise instead. -/
def toPlayerD (r : RawRow) : Player :=
  { name := r.name, position := r.position.toList.headD 'X', salary := r.salary,
    teamAbbrev := r.teamAbbrev, avePoints := r.avePoints }

/-- The row loop of load_roster: skip players with zero average points, file
    the rest under the position matching the first character of the role
    descriptor, and additionally under utils when that character is not G.
    Indexing an empty descriptor raises in Python, modelled by none. -/
def processRows : List RawRow → Pools → Option Pools
  | [], pools => some pools
  | r :: rest, pools =>
    match r.position.toList with
    | [] => none
    | c :: _ =>
      let player : Player :=
        { name := r.name, position := c, salary := r.salary,
          teamAbbrev := r.teamAbbrev, avePoints := r.avePoints }
      if player.avePoints ≠ 0 then
        let pools1 :=
          if c = 'G' then { pools with goalies := pools.goalies ++ [player] }
          else if c = 'C' then { pools with centers := pools.centers ++ [player] }
          else if c = 'W' then { pools with wingers := pools.wingers ++ [player] }
          else if c = 'D' then { pools with defencemen := pools.defencemen ++ [player] }
          else pools
        let pools2 :=
          if c ≠ 'G' then { pools1 with utils := pools1.utils ++ [player] }
          else pools1
        processRows rest pools2
      else processRows rest pools

/-- GeneticNHL.load_roster: skip the first 8 records unconditionally (next()
    on an exhausted reader raises, modelled by none when fewer than 8 records
    exist), then process every remaining record into the empty pools. -/
def load_roster (rows : List RawRow) : Option Pools :=
  if rows.length < 8 then none
  else processRows (rows.drop 8) ⟨[], [], [], [], []⟩

/-- A cell of the rows written by save_file: a player is replaced by its
    name, the numeric trailing fields stay as they are. -/
inductive Cell where
  | str (s : String)
  | num (q : ℚ)
  deriving DecidableEq

/-- player['name'] if isinstance(player, dict) else player. -/
def toCell : Entry → Cell
  | Entry.player p => Cell.str p.name
  | Entry.num q => Cell.num q

/-- The name-trimming comprehension of save_file. -/
def trimmedRows (lineups : List (List Entry)) : List (List Cell) :=
  lineups.map (fun lineup => lineup.map toCell)

/-- The body of the dedup comprehension of save_file, iterated over the index
    list: keep row i when it differs from row i+1; an out-of-range index
    raises IndexError, modelled by none. -/
def dedupAux (rows : List (List Cell)) : List ℕ → Option (List (List Cell))
  | [] => some []
  | i :: is => do
    let a ← rows[i]?
    let b ← rows[i + 1]?
    let rest ← dedupAux rows is
    some (if a ≠ b then a :: rest else rest)

/-- The dedup line of save_file:
    [lineups[i] for i in range(self.num_lineups - 1) if lineups[i] != lineups[i+1]]
    applied to the name-trimmed rows. -/
def save_dedup (numLineups : ℕ) (lineups : List (List Entry)) :
    Option (List (List Cell)) :=
  dedupAux (trimmedRows lineups) (List.range (numLineups - 1))

/-
  Concrete test fixture: a small roster with three teams of identical cheap
  players, and a random stream that makes every draw deterministic. With the
  draw pattern g9, generate_lineup picks the nine distinct players of ps0 on
  the first attempt; with an all-zero stream of length 14, mate_lineups on
  two copies of that lineup reproduces it exactly.
-/

def mkP (n : String) (pos : Char) (s : ℤ) (t : String) (a : ℚ) : Player :=
  ⟨n, pos, s, t, a⟩

def c1P : Player := mkP "C1" 'C' 3000 "AAA" 10

def c2P : Player := mkP "C2" 'C' 3000 "AAA" 10

def c3P : Player := mkP "C3" 'C' 3000 "AAA" 10

def w1P : Player := mkP "W1" 'W' 3000 "BBB" 10

def w2P : Player := mkP "W2" 'W' 3000 "BBB" 10

def w3P : Player := mkP "W3" 'W' 3000 "BBB" 10

def d1P : Player := mkP "D1" 'D' 3000 "CCC" 10

def d2P : Player := mkP "D2" 'D' 3000 "CCC" 10

def g1P : Player := mkP "G1" 'G' 3000 "DDD" 10

def pools0 : Pools :=
  { goalies := [g1P], centers := [c1P, c2P, c3P], wingers := [w1P, w2P, w3P],
    defencemen := [d1P, d2P], utils := [c1P, c2P, c3P, w1P, w2P, w3P, d1P, d2P] }

def ps0 : List Player := [c1P, c2P, w1P, w2P, w3P, d1P, d2P, g1P, c3P]

/-- A 9-player candidate with a duplicated player, rejected by check_valid. -/
def psBad : List Player := [c1P, c1P, w1P, w2P, w3P, d1P, d2P, g1P, c3P]

def lineup0 : List Entry := ps0.map Entry.player

/-- The validated lineup built from ps0: nine players, salary 27000,
    projection 90. -/
def lineup0full : List Entry := lineup0 ++ [Entry.num 27000, Entry.num 90]

/-- Draw pattern for one generate_lineup call on pools0 that yields the nine
    distinct players of ps0 at once. -/
def g9 : List ℕ := [0, 1, 0, 1, 2, 0, 1, 0, 2]

/-- Draw pattern for one full get_lineups round on pools0: ten generated
    lineups, three matings (14 zero draws each), four more generated
    lineups; 168 draws in total, each lineup equal to lineup0full. -/
def roundDraws : List ℕ :=
  (List.replicate 10 g9).flatten ++ List.replicate 42 0 ++
    (List.replicate 4 g9).flatten

/-- Witness for C1 at concrete inputs: ps0 is accepted with cost 27000 and
    score 90 appended, psBad (a duplicated player) is rejected. -/
theorem check_valid_spec_witness :
    check_valid (ps0.map Entry.player) = VResult.accepted lineup0full ∧
    check_valid (psBad.map Entry.player) = VResult.rejected := by
  constructor
  · exact ((check_valid_spec ps0 (by decide)).1 (by decide)).trans (by decide)
  · exact (check_valid_spec psBad (by decide)).2 (by decide)

/-- Witness for C8 at a concrete input: the duplicated-player candidate is
    rejected with the bare marker. -/
theorem check_valid_reject_witness :
    check_valid (psBad.map Entry.player) = VResult.rejected :=
  check_valid_reject psBad (by decide) (by decide)

/-- Inversion of acceptance: an accepted result is the input lineup extended
    with the salary and rounded projection of its player records, and the
    acceptance condition holds of those records. -/
lemma check_valid_accepted_shape (c l : List Entry)
    (h : check_valid c = VResult.accepted l) :
    ∃ ps, playersOfEntries c = some ps ∧ lineupCond ps ∧
      l = c ++ [Entry.num (((ps.map Player.salary).sum : ℤ) : ℚ),
                Entry.num (round2 (qsum (ps.map Player.avePoints)))] := by
  unfold check_valid at h
  cases hp : playersOfEntries c with
  | none => simp only [hp] at h; exact absurd h (by simp)
  | some ps =>
    simp only [hp] at h
    by_cases hc : lineupCond ps
    · rw [if_pos hc] at h
      exact ⟨ps, rfl, hc, (VResult.accepted.inj h).symm⟩
    · rw [if_neg hc] at h
      exact absurd h (by simp)

/-- C6 counterexample: re-validating the value returned by check_valid does
    not re-accept it; the appended numeric fields make the second call raise
    the modelled TypeError. The concrete accepted lineup lineup0full is
    produced by check_valid from ps0 and then errs when validated again. -/
theorem revalidate_errs :
    check_valid lineup0 = VResult.accepted lineup0full ∧
    check_valid lineup0full = VResult.err := by
  constructor
  · decide
  · decide

/-- C6 (amended): passing the full value returned by check_valid back in
    raises a type error instead of re-accepting (see the counterexample);
    what does hold is that re-validating the nine player slots of an accepted
    lineup re-accepts and returns the identical extended lineup, with the
    same cost and score fields. -/
theorem revalidate_players (ps : List Player) (l : List Entry)
    (h9 : ps.length = 9)
    (h : check_valid (ps.map Entry.player) = VResult.accepted l) :
    check_valid (l.take 9) = VResult.accepted l := by
  obtain ⟨ps', hp, hc, hl⟩ := check_valid_accepted_shape _ _ h
  rw [playersOfEntries_map] at hp
  obtain rfl : ps = ps' := Option.some.inj hp
  subst hl
  have hlen : (ps.map Entry.player).length = 9 := by simpa using h9
  rw [← hlen, List.take_left]
  exact check_valid_accept_of ps hc

/-- Witness for the amended C6 at a concrete input. -/
theorem revalidate_players_witness :
    check_valid (lineup0full.take 9) = VResult.accepted lineup0full :=
  revalidate_players ps0 lineup0full (by decide) (by decide)

/-- The player records occurring in a lineup, numeric fields skipped. -/
def playersOf (l : List Entry) : List Player :=
  l.filterMap (fun e => match e with | Entry.player p => some p | Entry.num _ => none)

/-- The three constraints of check_valid, read off a stored lineup. -/
abbrev lineupOK (l : List Entry) : Prop := lineupCond (playersOf l)

lemma playersOf_of_playersOfEntries :
    ∀ (c : List Entry) (ps : List Player),
      playersOfEntries c = some ps → playersOf c = ps := by
  intro c
  induction c with
  | nil =>
    intro ps h
    simp only [playersOfEntries, Option.some.injEq] at h
    subst h
    rfl
  | cons e rest ih =>
    intro ps h
    cases e with
    | num q => simp [playersOfEntries] at h
    | player p =>
      simp only [playersOfEntries, Option.map_eq_some'] at h
      obtain ⟨ps', hrec, rfl⟩ := h
      simp [playersOf, List.filterMap_cons]
      have := ih ps' hrec
      simp [playersOf] at this
      simp [this]

lemma accepted_lineupOK (c l : List Entry)
    (h : check_valid c = VResult.accepted l) : lineupOK l := by
  obtain ⟨ps, hp, hc, rfl⟩ := check_valid_accepted_shape c l h
  have hpc : playersOf c = ps := playersOf_of_playersOfEntries c ps hp
  show lineupCond (playersOf (c ++ _))
  have : playersOf (c ++ [Entry.num (((ps.map Player.salary).sum : ℤ) : ℚ),
      Entry.num (round2 (qsum (ps.map Player.avePoints)))]) = ps := by
    simp [playersOf, List.filterMap_append] at hpc ⊢
    simp [hpc]
  rw [this]
  exact hc

lemma generate_lineup_accepted (p : Pools) :
    ∀ (fuel : ℕ) (rng rng2 : List ℕ) (l : List Entry),
      generate_lineup p fuel rng = some (l, rng2) →
      ∃ c, check_valid c = VResult.accepted l := by
  intro fuel
  induction fuel with
  | zero => intro rng rng2 l h; simp [generate_lineup] at h
  | succ n ih =>
    intro rng rng2 l h
    simp only [generate_lineup, Option.bind_eq_bind, Option.bind_eq_some] at h
    obtain ⟨⟨x1, r1⟩, -, ⟨x2, r2⟩, -, ⟨x3, r3⟩, -, ⟨x4, r4⟩, -, ⟨x5, r5⟩, -,
      ⟨x6, r6⟩, -, ⟨x7, r7⟩, -, ⟨x8, r8⟩, -, ⟨x9, r9⟩, -, h⟩ := h
    cases hcv : check_valid [Entry.player x1, Entry.player x2, Entry.player x3,
        Entry.player x4, Entry.player x5, Entry.player x6, Entry.player x7,
        Entry.player x8, Entry.player x9] with
    | accepted l0 =>
      simp only [hcv, Option.some.injEq, Prod.mk.injEq] at h
      obtain ⟨rfl, rfl⟩ := h
      exact ⟨_, hcv⟩
    | rejected =>
      simp only [hcv] at h
      exact ih _ _ _ h
    | err => simp only [hcv] at h; exact Option.noConfusion h

lemma mate_lineups_accepted (p : Pools) (l1 l2 : List Entry) :
    ∀ (fuel : ℕ) (rng rng2 : List ℕ) (child : List Entry),
      mate_lineups p l1 l2 fuel rng = some (child, rng2) →
      ∃ c, check_valid c = VResult.accepted child := by
  intro fuel
  induction fuel with
  | zero => intro rng rng2 child h; simp [mate_lineups] at h
  | succ n ih =>
    intro rng rng2 child h
    simp only [mate_lineups] at h
    cases hA : mateAttempt p l1 l2 rng with
    | none => simp only [hA] at h; exact Option.noConfusion h
    | some t =>
      obtain ⟨cand, extras, rng'⟩ := t
      simp only [hA] at h
      cases hcv : check_valid cand with
      | accepted l0 =>
        simp only [hcv, Option.some.injEq, Prod.mk.injEq] at h
        obtain ⟨rfl, rfl⟩ := h
        exact ⟨_, hcv⟩
      | rejected =>
        simp only [hcv] at h
        exact ih _ _ _ h
      | err => simp only [hcv] at h; exact Option.noConfusion h

lemma genN_mem (p : Pools) (fuel : ℕ) :
    ∀ (n : ℕ) (rng rng2 : List ℕ) (ls : List (List Entry)),
      genN p fuel n rng = some (ls, rng2) →
      ∀ l ∈ ls, ∃ c, check_valid c = VResult.accepted l := by
  intro n
  induction n with
  | zero =>
    intro rng rng2 ls h
    simp only [genN, Option.some.injEq, Prod.mk.injEq] at h
    obtain ⟨rfl, rfl⟩ := h
    intro l hl
    simp at hl
  | succ n ih =>
    intro rng rng2 ls h
    simp only [genN, Option.bind_eq_bind, Option.bind_eq_some] at h
    obtain ⟨⟨l0, r0⟩, hgen, ⟨ls', r1⟩, hrec, h⟩ := h
    simp only [Option.some.injEq, Prod.mk.injEq] at h
    obtain ⟨rfl, rfl⟩ := h
    intro l hl
    rcases List.mem_cons.mp hl with rfl | hl'
    · exact generate_lineup_accepted p _ _ _ _ hgen
    · exact ih _ _ _ hrec l hl'

lemma genN_length (p : Pools) (fuel : ℕ) :
    ∀ (n : ℕ) (rng rng2 : List ℕ) (ls : List (List Entry)),
      genN p fuel n rng = some (ls, rng2) → ls.length = n := by
  intro n
  induction n with
  | zero =>
    intro rng rng2 ls h
    simp only [genN, Option.some.injEq, Prod.mk.injEq] at h
    obtain ⟨rfl, rfl⟩ := h
    rfl
  | succ n ih =>
    intro rng rng2 ls h
    simp only [genN, Option.bind_eq_bind, Option.bind_eq_some] at h
    obtain ⟨⟨l0, r0⟩, -, ⟨ls', r1⟩, hrec, h⟩ := h
    simp only [Option.some.injEq, Prod.mk.injEq] at h
    obtain ⟨rfl, rfl⟩ := h
    simp [ih _ _ _ hrec]

/-- Inversion of one get_lineups round: the new population is the old one
    with exactly 10 appended lineups, each of which was accepted by
    check_valid. -/
lemma get_lineups_inv (p : Pools) (fuel : ℕ) (lineups : List (List Entry))
    (rng rng2 : List ℕ) (ls : List (List Entry))
    (h : get_lineups p fuel lineups rng = some (ls, rng2)) :
    ∃ L, ls = lineups ++ L ∧ L.length = 10 ∧
      ∀ l ∈ L, ∃ c, check_valid c = VResult.accepted l := by
  simp only [get_lineups, Option.bind_eq_bind, Option.bind_eq_some] at h
  obtain ⟨⟨batch, rb⟩, hbatch, h⟩ := h
  cases hs : sortByScoreDesc batch with
  | nil => simp only [hs] at h; exact Option.noConfusion h
  | cons a t1 =>
    cases t1 with
    | nil => simp only [hs] at h; exact Option.noConfusion h
    | cons b t2 =>
      cases t2 with
      | nil => simp only [hs] at h; exact Option.noConfusion h
      | cons c rest =>
        simp only [hs, Option.bind_eq_bind, Option.bind_eq_some] at h
        obtain ⟨⟨m1, r1⟩, hm1, ⟨m2, r2⟩, hm2, ⟨m3, r3⟩, hm3, ⟨f1, s1⟩, hf1,
          ⟨f2, s2⟩, hf2, ⟨f3, s3⟩, hf3, ⟨f4, s4⟩, hf4, h⟩ := h
        simp only [Option.some.injEq, Prod.mk.injEq] at h
        obtain ⟨rfl, rfl⟩ := h
        refine ⟨[a, b, c, m1, m2, m3, f1, f2, f3, f4], rfl, rfl, ?_⟩
        have hsortmem : ∀ x ∈ sortByScoreDesc batch, x ∈ batch := fun x hx =>
          (List.Perm.mem_iff (List.perm_insertionSort _ batch)).mp hx
        intro l hl
        simp only [List.mem_cons, List.not_mem_nil, or_false] at hl
        rcases hl with rfl | rfl | rfl | rfl | rfl | rfl | rfl | rfl | rfl | rfl
        · exact genN_mem p fuel 10 rng rb batch hbatch l
            (hsortmem l (by rw [hs]; simp))
        · exact genN_mem p fuel 10 rng rb batch hbatch l
            (hsortmem l (by rw [hs]; simp))
        · exact genN_mem p fuel 10 rng rb batch hbatch l
            (hsortmem l (by rw [hs]; simp))
        · exact mate_lineups_accepted p a b fuel rb r1 l hm1
        · exact mate_lineups_accepted p a c fuel r1 r2 l hm2
        · exact mate_lineups_accepted p b c fuel r2 r3 l hm3
        · exact generate_lineup_accepted p fuel r3 s1 l hf1
        · exact generate_lineup_accepted p fuel s1 s2 l hf2
        · exact generate_lineup_accepted p fuel s2 s3 l hf3
        · exact generate_lineup_accepted p fuel s3 s4 l hf4

/-- The length recurrence of the run loop: each completed iteration appends
    10 and then truncates to numLineups. -/
def roundLen (num : ℕ) : ℕ → ℕ → ℕ
  | 0, len => len
  | k + 1, len => roundLen num k (min num (len + 10))

lemma roundLen_eq_min (num : ℕ) :
    ∀ (k len : ℕ), len ≤ num → roundLen num k len = min (len + 10 * k) num := by
  intro k
  induction k with
  | zero => intro len h; simp [roundLen]; omega
  | succ n ih =>
    intro len h
    rw [roundLen, ih _ (Nat.min_le_left _ _)]
    omega

/-- Inversion of the whole run loop: the final population holds only
    check_valid-accepted lineups, and its length follows the
    append-10-sort-truncate recurrence. -/
lemma runRounds_inv (p : Pools) (num fuel : ℕ) :
    ∀ (k : ℕ) (lineups : List (List Entry)) (rng rng2 : List ℕ)
      (pop : List (List Entry)),
      runRounds p num fuel k lineups rng = some (pop, rng2) →
      (∀ l ∈ lineups, ∃ c, check_valid c = VResult.accepted l) →
      (∀ l ∈ pop, ∃ c, check_valid c = VResult.accepted l) ∧
        pop.length = roundLen num k lineups.length := by
  intro k
  induction k with
  | zero =>
    intro lineups rng rng2 pop h hok
    simp only [runRounds, Option.some.injEq, Prod.mk.injEq] at h
    obtain ⟨rfl, rfl⟩ := h
    exact ⟨hok, rfl⟩
  | succ n ih =>
    intro lineups rng rng2 pop h hok
    simp only [runRounds, Option.bind_eq_bind, Option.bind_eq_some] at h
    obtain ⟨⟨ls, r1⟩, hgl, h⟩ := h
    obtain ⟨L, hls, hLlen, hLok⟩ := get_lineups_inv p fuel lineups rng r1 ls hgl
    have hok' : ∀ l ∈ (sortByScoreDesc ls).take num,
        ∃ c, check_valid c = VResult.accepted l := by
      intro l hl
      have h1 : l ∈ sortByScoreDesc ls := List.take_subset _ _ hl
      have h2 : l ∈ ls := (List.Perm.mem_iff (List.perm_insertionSort _ ls)).mp h1
      rw [hls] at h2
      rcases List.mem_append.mp h2 with h3 | h3
      · exact hok l h3
      · exact hLok l h3
    have hrec := ih _ _ _ _ h hok'
    refine ⟨hrec.1, ?_⟩
    rw [hrec.2, roundLen]
    congr 1
    rw [List.length_take, sortByScoreDesc, List.length_insertionSort, hls,
      List.length_append, hLlen]

/-- C5: every lineup in the population after any number of completed rounds,
    starting from the empty population, was accepted by check_valid, hence
    its total cost is below 50000, it spans at least 3 distinct teams and it
    holds exactly 9 distinct player names. -/
theorem population_all_valid (p : Pools) (num fuel k : ℕ)
    (rng rng2 : List ℕ) (pop : List (List Entry))
    (h : runRounds p num fuel k [] rng = some (pop, rng2))
    (l : List Entry) (hl : l ∈ pop) : lineupOK l := by
  obtain ⟨c, hc⟩ :=
    (runRounds_inv p num fuel k [] rng rng2 pop h (by simp)).1 l hl
  exact accepted_lineupOK c l hc

/-- Witness for C5: one concrete round on pools0 yields five copies of
    lineup0full, each satisfying the three constraints. -/
theorem population_all_valid_witness : lineupOK lineup0full :=
  population_all_valid pools0 5 5 1 roundDraws []
    (List.replicate 5 lineup0full) (by decide) lineup0full (by decide)

/-- C2 (amended): run() sorts and truncates the population to num_lineups at
    the end of every round, not once at the end; consequently after k
    completed rounds the population size is min(10k, num_lineups), starting
    from the empty population. -/
theorem population_length (p : Pools) (num fuel k : ℕ)
    (rng rng2 : List ℕ) (pop : List (List Entry))
    (h : runRounds p num fuel k [] rng = some (pop, rng2)) :
    pop.length = min (10 * k) num := by
  have h2 := (runRounds_inv p num fuel k [] rng rng2 pop h (by simp)).2
  rw [h2]
  have := roundLen_eq_min num k 0 (Nat.zero_le _)
  simpa using this

/-- Witness for the amended C2: one concrete round with num_lineups = 5 ends
    with min(10, 5) = 5 lineups. -/
theorem population_length_witness :
    (List.replicate 5 lineup0full).length = min (10 * 1) 5 :=
  population_length pools0 5 5 1 roundDraws []
    (List.replicate 5 lineup0full) (by decide)

set_option maxRecDepth 100000 in
/-- C2 counterexample: with num_lineups = 5 the code trims the population to
    5 lineups already after round 1 (so the population is not 10k before the
    final truncation and trimming is per-round): entering round 2, the
    population before that round's truncation holds 15 lineups, not
    10 * 2 = 20, and the claimed single end-of-run truncation would have
    left 10 after round 1 where the code leaves 5. -/
theorem population_trimmed_per_round :
    runRounds pools0 5 5 1 [] (roundDraws ++ roundDraws) =
      some (List.replicate 5 lineup0full, roundDraws) ∧
    (List.replicate 5 lineup0full).length = 5 ∧
    get_lineups pools0 5 (List.replicate 5 lineup0full) roundDraws =
      some (List.replicate 15 lineup0full, []) ∧
    (List.replicate 15 lineup0full).length ≠ 10 * 2 := by
  refine ⟨by decide, by decide, by decide, by decide⟩

/-- C3: one get_lineups round appends exactly 10 lineups to the population,
    in this order: the top three of the score-sorted fresh batch of ten, the
    three pairwise matings of those top three (1x2, 1x3, 2x3), and four more
    independently generated fresh lineups. -/
theorem get_lineups_round (p : Pools) (fuel : ℕ) (lineups : List (List Entry))
    (rng rngb : List ℕ) (batch : List (List Entry)) (a b c : List Entry)
    (rest : List (List Entry)) (m1 m2 m3 f1 f2 f3 f4 : List Entry)
    (r1 r2 r3 s1 s2 s3 s4 : List ℕ)
    (h1 : genN p fuel 10 rng = some (batch, rngb))
    (h2 : sortByScoreDesc batch = a :: b :: c :: rest)
    (h3 : mate_lineups p a b fuel rngb = some (m1, r1))
    (h4 : mate_lineups p a c fuel r1 = some (m2, r2))
    (h5 : mate_lineups p b c fuel r2 = some (m3, r3))
    (h6 : generate_lineup p fuel r3 = some (f1, s1))
    (h7 : generate_lineup p fuel s1 = some (f2, s2))
    (h8 : generate_lineup p fuel s2 = some (f3, s3))
    (h9 : generate_lineup p fuel s3 = some (f4, s4)) :
    get_lineups p fuel lineups rng =
      some (lineups ++ [a, b, c, m1, m2, m3, f1, f2, f3, f4], s4) ∧
    (lineups ++ [a, b, c, m1, m2, m3, f1, f2, f3, f4]).length =
      lineups.length + 10 := by
  constructor
  · simp only [get_lineups, Option.bind_eq_bind, h1, Option.some_bind, h2,
      h3, h4, h5, h6, h7, h8, h9]
  · simp

/-- Remaining streams after each stage of the concrete round on pools0. -/
def rngM0 : List ℕ := List.replicate 42 0 ++ (List.replicate 4 g9).flatten

def rngM1 : List ℕ := List.replicate 28 0 ++ (List.replicate 4 g9).flatten

def rngM2 : List ℕ := List.replicate 14 0 ++ (List.replicate 4 g9).flatten

def rngM3 : List ℕ := (List.replicate 4 g9).flatten

def rngF1 : List ℕ := (List.replicate 3 g9).flatten

def rngF2 : List ℕ := (List.replicate 2 g9).flatten

def rngF3 : List ℕ := (List.replicate 1 g9).flatten

/-- Witness for C3: the concrete round on pools0, with every component call
    evaluated, appends exactly the ten lineups in the stated order. -/
theorem get_lineups_round_witness :
    get_lineups pools0 5 [] roundDraws =
      some (([] : List (List Entry)) ++ [lineup0full, lineup0full, lineup0full,
        lineup0full, lineup0full, lineup0full, lineup0full, lineup0full,
        lineup0full, lineup0full], []) ∧
    (([] : List (List Entry)) ++ [lineup0full, lineup0full, lineup0full,
      lineup0full, lineup0full, lineup0full, lineup0full, lineup0full,
      lineup0full, lineup0full]).length = ([] : List (List Entry)).length + 10 :=
  get_lineups_round pools0 5 [] roundDraws rngM0
    (List.replicate 10 lineup0full) lineup0full lineup0full lineup0full
    (List.replicate 7 lineup0full) lineup0full lineup0full lineup0full
    lineup0full lineup0full lineup0full lineup0full
    rngM1 rngM2 rngM3 rngF1 rngF2 rngF3 []
    (by decide) (by decide) (by decide) (by decide) (by decide)
    (by decide) (by decide) (by decide) (by decide)

lemma mem_take_of_getElem? {α : Type} :
    ∀ (l : List α) (n i : ℕ) (x : α), l[i]? = some x → i < n → x ∈ l.take n := by
  intro l
  induction l with
  | nil => intro n i x h _; simp at h
  | cons a as ih =>
    intro n i x h hi
    cases n with
    | zero => omega
    | succ n =>
      cases i with
      | zero =>
        simp only [List.getElem?_cons_zero, Option.some.injEq] at h
        subst h
        simp [List.take]
      | succ i =>
        have h' : as[i]? = some x := by simpa using h
        exact List.mem_cons_of_mem a (ih n i x h' (by omega))

lemma perm_getD_eraseIdx {α : Type} (d : α) :
    ∀ (l : List α) (i : ℕ), i < l.length →
      l.Perm (l.getD i d :: l.eraseIdx i) := by
  intro l
  induction l with
  | nil => intro i h; simp at h
  | cons a as ih =>
    intro i h
    cases i with
    | zero => simpa using List.Perm.refl (a :: as)
    | succ i =>
      have h' : i < as.length := by simpa using h
      have step : (a :: as).Perm (a :: (as.getD i d :: as.eraseIdx i)) :=
        List.Perm.cons a (ih i h')
      exact step.trans (List.Perm.swap (as.getD i d) a (as.eraseIdx i))

lemma grab_players_spec {α : Type} :
    ∀ (n : ℕ) (pool : List α) (rng : List ℕ) (cs rem : List α) (r : List ℕ),
      grab_players pool n rng = some (cs, rem, r) →
      cs.length = n ∧ (cs ++ rem).Perm pool := by
  intro n
  induction n with
  | zero =>
    intro pool rng cs rem r h
    simp only [grab_players, Option.some.injEq, Prod.mk.injEq] at h
    obtain ⟨rfl, rfl, rfl⟩ := h
    exact ⟨rfl, List.Perm.refl _⟩
  | succ n ih =>
    intro pool rng cs rem r h
    cases pool with
    | nil => simp [grab_players] at h
    | cons a as =>
      simp only [grab_players] at h
      cases hrec : grab_players
          ((a :: as).eraseIdx (rng.headD 0 % (a :: as).length)) n rng.tail with
      | none => rw [hrec] at h; exact Option.noConfusion h
      | some t =>
        obtain ⟨cs', rem', r'⟩ := t
        rw [hrec] at h
        simp only [Option.some.injEq, Prod.mk.injEq] at h
        obtain ⟨rfl, rfl, rfl⟩ := h
        have hlt : rng.headD 0 % (a :: as).length < (a :: as).length :=
          Nat.mod_lt _ (by simp)
        obtain ⟨hlen, hperm⟩ := ih _ _ _ _ _ hrec
        refine ⟨by simp [hlen], ?_⟩
        exact (List.Perm.cons _ hperm).trans
          (perm_getD_eraseIdx a (a :: as) _ hlt).symm

lemma centersPool_inv (p : Pools) (l1 l2 : List Entry) (rng : List ℕ)
    (pool : List Entry) (ec : Player) (r : List ℕ)
    (h : centersPool p l1 l2 rng = some (pool, ec, r)) :
    ∃ c0 c1 c2 c3, l1[0]? = some c0 ∧ l1[1]? = some c1 ∧
      l2[0]? = some c2 ∧ l2[1]? = some c3 ∧
      pool = [c0, c1, c2, c3, Entry.player ec] := by
  simp only [centersPool, Option.bind_eq_bind, Option.bind_eq_some] at h
  obtain ⟨c0, h0, c1, h1, c2, h2, c3, h3, ⟨ecx, rx⟩, -, h⟩ := h
  simp only [Option.some.injEq, Prod.mk.injEq] at h
  obtain ⟨rfl, rfl, rfl⟩ := h
  exact ⟨c0, c1, c2, c3, h0, h1, h2, h3, rfl⟩

lemma wingersPool_inv (p : Pools) (l1 l2 : List Entry) (rng : List ℕ)
    (pool : List Entry) (ew : Player) (r : List ℕ)
    (h : wingersPool p l1 l2 rng = some (pool, ew, r)) :
    ∃ w0 w1 w2 w3 w4 w5, l1[2]? = some w0 ∧ l1[3]? = some w1 ∧
      l1[4]? = some w2 ∧ l2[2]? = some w3 ∧ l2[3]? = some w4 ∧
      l2[4]? = some w5 ∧
      pool = [w0, w1, w2, w3, w4, w5, Entry.player ew] := by
  simp only [wingersPool, Option.bind_eq_bind, Option.bind_eq_some] at h
  obtain ⟨w0, h0, w1, h1, w2, h2, w3, h3, w4, h4, w5, h5, ⟨ewx, rx⟩, -, h⟩ := h
  simp only [Option.some.injEq, Prod.mk.injEq] at h
  obtain ⟨rfl, rfl, rfl⟩ := h
  exact ⟨w0, w1, w2, w3, w4, w5, h0, h1, h2, h3, h4, h5, rfl⟩

lemma defencemenPool_inv (p : Pools) (l1 l2 : List Entry) (rng : List ℕ)
    (pool : List Entry) (ed : Player) (r : List ℕ)
    (h : defencemenPool p l1 l2 rng = some (pool, ed, r)) :
    ∃ d0 d1 d2 d3, l1[5]? = some d0 ∧ l1[6]? = some d1 ∧
      l2[5]? = some d2 ∧ l2[6]? = some d3 ∧
      pool = [d0, d1, d2, d3, Entry.player ed] := by
  simp only [defencemenPool, Option.bind_eq_bind, Option.bind_eq_some] at h
  obtain ⟨d0, h0, d1, h1, d2, h2, d3, h3, ⟨edx, rx⟩, -, h⟩ := h
  simp only [Option.some.injEq, Prod.mk.injEq] at h
  obtain ⟨rfl, rfl, rfl⟩ := h
  exact ⟨d0, d1, d2, d3, h0, h1, h2, h3, rfl⟩

lemma goaliesPool_inv (p : Pools) (l1 l2 : List Entry) (rng : List ℕ)
    (pool : List Entry) (eg : Player) (r : List ℕ)
    (h : goaliesPool p l1 l2 rng = some (pool, eg, r)) :
    ∃ g0 g1, l1[7]? = some g0 ∧ l2[7]? = some g1 ∧
      pool = [g0, g1, Entry.player eg] := by
  simp only [goaliesPool, Option.bind_eq_bind, Option.bind_eq_some] at h
  obtain ⟨g0, h0, g1, h1, ⟨egx, rx⟩, -, h⟩ := h
  simp only [Option.some.injEq, Prod.mk.injEq] at h
  obtain ⟨rfl, rfl, rfl⟩ := h
  exact ⟨g0, g1, h0, h1, rfl⟩

lemma utilsPool_inv (p : Pools) (l1 l2 : List Entry) (rng : List ℕ)
    (pool : List Entry) (eu : Player) (r : List ℕ)
    (h : utilsPool p l1 l2 rng = some (pool, eu, r)) :
    ∃ u0 u1, l1[8]? = some u0 ∧ l2[8]? = some u1 ∧
      pool = [u0, u1, Entry.player eu] := by
  simp only [utilsPool, Option.bind_eq_bind, Option.bind_eq_some] at h
  obtain ⟨u0, h0, u1, h1, ⟨eux, rx⟩, -, h⟩ := h
  simp only [Option.some.injEq, Prod.mk.injEq] at h
  obtain ⟨rfl, rfl, rfl⟩ := h
  exact ⟨u0, u1, h0, h1, rfl⟩

/-- Traceability of one mating attempt: the 9-slot candidate consists only of
    entries of the parents' player slots and the five extra draws, and the
    per-role samples are drawn without replacement. -/
lemma mateAttempt_trace (p : Pools) (l1 l2 : List Entry) (rng : List ℕ)
    (cand extras : List Entry) (r : List ℕ)
    (h : mateAttempt p l1 l2 rng = some (cand, extras, r)) :
    cand.length = 9 ∧
    ∀ x ∈ cand, x ∈ l1.take 9 ∨ x ∈ l2.take 9 ∨ x ∈ extras := by
  simp only [mateAttempt, Option.bind_eq_bind, Option.bind_eq_some] at h
  obtain ⟨⟨cpool, ec, r1⟩, hc, ⟨wpool, ew, r2⟩, hw, ⟨dpool, ed, r3⟩, hd,
    ⟨gpool, eg, r4⟩, hg, ⟨upool, eu, r5⟩, hu,
    ⟨cs, crem, r6⟩, hgc, ⟨ws, wrem, r7⟩, hgw, ⟨ds, drem, r8⟩, hgd,
    ⟨gs, grem, r9⟩, hgg, ⟨us, urem, r10⟩, hgu, h⟩ := h
  simp only [Option.some.injEq, Prod.mk.injEq] at h
  obtain ⟨rfl, rfl, rfl⟩ := h
  obtain ⟨hcn, hcp⟩ := grab_players_spec 2 cpool r5 cs crem r6 hgc
  obtain ⟨hwn, hwp⟩ := grab_players_spec 3 wpool r6 ws wrem r7 hgw
  obtain ⟨hdn, hdp⟩ := grab_players_spec 2 dpool r7 ds drem r8 hgd
  obtain ⟨hgn, hgp⟩ := grab_players_spec 1 gpool r8 gs grem r9 hgg
  obtain ⟨hun, hup⟩ := grab_players_spec 1 upool r9 us urem r10 hgu
  constructor
  · simp [hcn, hwn, hdn, hgn, hun]
  · obtain ⟨c0, c1, c2, c3, hx0, hx1, hx2, hx3, rfl⟩ :=
      centersPool_inv p l1 l2 rng cpool ec r1 hc
    obtain ⟨w0, w1, w2, w3, w4, w5, hy0, hy1, hy2, hy3, hy4, hy5, rfl⟩ :=
      wingersPool_inv p l1 l2 r1 wpool ew r2 hw
    obtain ⟨d0, d1, d2, d3, hz0, hz1, hz2, hz3, rfl⟩ :=
      defencemenPool_inv p l1 l2 r2 dpool ed r3 hd
    obtain ⟨g0, g1, hv0, hv1, rfl⟩ := goaliesPool_inv p l1 l2 r3 gpool eg r4 hg
    obtain ⟨u0, u1, hw0, hw1, rfl⟩ := utilsPool_inv p l1 l2 r4 upool eu r5 hu
    intro x hx
    have inPool : x ∈ [c0, c1, c2, c3, Entry.player ec] ∨
        x ∈ [w0, w1, w2, w3, w4, w5, Entry.player ew] ∨
        x ∈ [d0, d1, d2, d3, Entry.player ed] ∨
        x ∈ [g0, g1, Entry.player eg] ∨
        x ∈ [u0, u1, Entry.player eu] := by
      rcases List.mem_append.mp hx with hx | hx5
      rcases List.mem_append.mp hx with hx | hx4
      rcases List.mem_append.mp hx with hx | hx3
      rcases List.mem_append.mp hx with hx1 | hx2
      · exact Or.inl (hcp.subset (List.mem_append_left _ hx1))
      · exact Or.inr (Or.inl (hwp.subset (List.mem_append_left _ hx2)))
      · exact Or.inr (Or.inr (Or.inl (hdp.subset (List.mem_append_left _ hx3))))
      · exact Or.inr (Or.inr (Or.inr (Or.inl
          (hgp.subset (List.mem_append_left _ hx4)))))
      · exact Or.inr (Or.inr (Or.inr (Or.inr
          (hup.subset (List.mem_append_left _ hx5)))))
    have take1 : ∀ (l : List Entry) (i : ℕ) (y : Entry),
        l[i]? = some y → i < 9 → y ∈ l.take 9 := fun l i y hy hi =>
      mem_take_of_getElem? l 9 i y hy hi
    rcases inPool with hp | hp | hp | hp | hp <;>
      simp only [List.mem_cons, List.not_mem_nil, or_false] at hp
    · rcases hp with rfl | rfl | rfl | rfl | rfl
      · exact Or.inl (take1 l1 0 x hx0 (by omega))
      · exact Or.inl (take1 l1 1 x hx1 (by omega))
      · exact Or.inr (Or.inl (take1 l2 0 x hx2 (by omega)))
      · exact Or.inr (Or.inl (take1 l2 1 x hx3 (by omega)))
      · exact Or.inr (Or.inr (by simp))
    · rcases hp with rfl | rfl | rfl | rfl | rfl | rfl | rfl
      · exact Or.inl (take1 l1 2 x hy0 (by omega))
      · exact Or.inl (take1 l1 3 x hy1 (by omega))
      · exact Or.inl (take1 l1 4 x hy2 (by omega))
      · exact Or.inr (Or.inl (take1 l2 2 x hy3 (by omega)))
      · exact Or.inr (Or.inl (take1 l2 3 x hy4 (by omega)))
      · exact Or.inr (Or.inl (take1 l2 4 x hy5 (by omega)))
      · exact Or.inr (Or.inr (by simp))
    · rcases hp with rfl | rfl | rfl | rfl | rfl
      · exact Or.inl (take1 l1 5 x hz0 (by omega))
      · exact Or.inl (take1 l1 6 x hz1 (by omega))
      · exact Or.inr (Or.inl (take1 l2 5 x hz2 (by omega)))
      · exact Or.inr (Or.inl (take1 l2 6 x hz3 (by omega)))
      · exact Or.inr (Or.inr (by simp))
    · rcases hp with rfl | rfl | rfl
      · exact Or.inl (take1 l1 7 x hv0 (by omega))
      · exact Or.inr (Or.inl (take1 l2 7 x hv1 (by omega)))
      · exact Or.inr (Or.inr (by simp))
    · rcases hp with rfl | rfl | rfl
      · exact Or.inl (take1 l1 8 x hw0 (by omega))
      · exact Or.inr (Or.inl (take1 l2 8 x hw1 (by omega)))
      · exact Or.inr (Or.inr (by simp))

/-- C4: on the accepting attempt of mate_lineups (a mateAttempt whose
    candidate check_valid accepts, which is exactly how mate_lineups produces
    its result, as the second conjunct shows), every player slot of the child
    comes from the player slots of parent1, the player slots of parent2, or
    the five extra per-role draws of that attempt; and grab_players samples
    without replacement: it returns the required number of entries and the
    chosen entries together with the remaining pool are a permutation of the
    role pool, so each chosen entry is removed from its local pool. -/
theorem mate_child_sources (p : Pools) (l1 l2 : List Entry) (fuel : ℕ)
    (rng r rng2 r2 : List ℕ) (cand extras child : List Entry) (x : Entry)
    (pool cs rem : List Entry) (n : ℕ)
    (hA : mateAttempt p l1 l2 rng = some (cand, extras, r))
    (hacc : check_valid cand = VResult.accepted child)
    (hx : x ∈ child.take 9)
    (hg : grab_players pool n rng2 = some (cs, rem, r2)) :
    (x ∈ l1.take 9 ∨ x ∈ l2.take 9 ∨ x ∈ extras) ∧
    mate_lineups p l1 l2 (fuel + 1) rng = some (child, r) ∧
    cs.length = n ∧ (cs ++ rem).Perm pool := by
  obtain ⟨hlen9, htrace⟩ := mateAttempt_trace p l1 l2 rng cand extras r hA
  obtain ⟨ps, hp, hc, hchild⟩ := check_valid_accepted_shape _ _ hacc
  have htake : child.take 9 = cand := by
    rw [hchild, ← hlen9, List.take_left]
  rw [htake] at hx
  obtain ⟨hn, hperm⟩ := grab_players_spec n pool rng2 cs rem r2 hg
  refine ⟨htrace x hx, ?_, hn, hperm⟩
  simp only [mate_lineups, hA, hacc]

/-- The five extra draws of the concrete all-zero mating attempt on
    pools0. -/
def extras0 : List Entry :=
  [Entry.player c1P, Entry.player w1P, Entry.player d1P, Entry.player g1P,
   Entry.player c1P]

/-- Witness for C4 at concrete inputs: the all-zero mating attempt of
    lineup0full with itself is accepted and returns lineup0full; the utility
    player C3 of the child traces to a parent slot; a concrete grab_players
    call picks 1 of 2 entries and leaves the other. -/
theorem mate_child_sources_witness :
    (Entry.player c3P ∈ lineup0full.take 9 ∨
      Entry.player c3P ∈ lineup0full.take 9 ∨ Entry.player c3P ∈ extras0) ∧
    mate_lineups pools0 lineup0full lineup0full (0 + 1) (List.replicate 14 0) =
      some (lineup0full, []) ∧
    ([Entry.player c1P] : List Entry).length = 1 ∧
    (([Entry.player c1P] ++ [Entry.player c2P]) : List Entry).Perm
      [Entry.player c1P, Entry.player c2P] :=
  mate_child_sources pools0 lineup0full lineup0full 0 (List.replicate 14 0)
    [] [0] [] lineup0 extras0 lineup0full (Entry.player c3P)
    [Entry.player c1P, Entry.player c2P] [Entry.player c1P] [Entry.player c2P]
    1 (by decide) (by decide) (by decide) (by decide)

/-- A roster record whose role descriptor starts with one of the four
    position codes G, C, W, D. -/
def roleOK (r : RawRow) : Bool :=
  match r.position.toList with
  | [] => false
  | c :: _ => c == 'G' || c == 'C' || c == 'W' || c == 'D'

lemma processRows_spec :
    ∀ (rows : List RawRow) (acc : Pools),
      (∀ rr ∈ rows, roleOK rr = true) →
      processRows rows acc = some
        { goalies := acc.goalies ++ ((rows.map toPlayerD).filter
            (fun q => decide (q.avePoints ≠ 0 ∧ q.position = 'G'))),
          centers := acc.centers ++ ((rows.map toPlayerD).filter
            (fun q => decide (q.avePoints ≠ 0 ∧ q.position = 'C'))),
          wingers := acc.wingers ++ ((rows.map toPlayerD).filter
            (fun q => decide (q.avePoints ≠ 0 ∧ q.position = 'W'))),
          defencemen := acc.defencemen ++ ((rows.map toPlayerD).filter
            (fun q => decide (q.avePoints ≠ 0 ∧ q.position = 'D'))),
          utils := acc.utils ++ ((rows.map toPlayerD).filter
            (fun q => decide (q.avePoints ≠ 0 ∧ q.position ≠ 'G'))) } := by
  intro rows
  induction rows with
  | nil => intro acc h; simp [processRows]
  | cons rr rest ih =>
    intro acc h
    have hrr := h rr (List.mem_cons_self rr rest)
    have hrest : ∀ r ∈ rest, roleOK r = true := fun r hr =>
      h r (List.mem_cons_of_mem rr hr)
    cases hpos : rr.position.toList with
    | nil => rw [roleOK, hpos] at hrr; simp at hrr
    | cons c cs =>
      have hpos2 : rr.position.data = c :: cs := hpos
      have hP : toPlayerD rr =
          ⟨rr.name, c, rr.salary, rr.teamAbbrev, rr.avePoints⟩ := by
        simp [toPlayerD, hpos2]
      rw [roleOK, hpos] at hrr
      simp only [Bool.or_eq_true, beq_iff_eq] at hrr
      simp only [processRows, hpos]
      by_cases hz : rr.avePoints = 0
      · rw [if_neg (by simp [hz])]
        rw [ih acc hrest]
        simp [List.filter_cons, hP, hz]
      · rw [if_pos (by simp [hz])]
        rcases hrr with ((rfl | rfl) | rfl) | rfl <;>
        · rw [ih _ hrest]
          simp [List.filter_cons, hP, hz, List.append_assoc]

/-- C7: load_roster skips the first 8 records unconditionally, excludes every
    player whose projected value is exactly zero from all pool sequences,
    buckets each remaining player by the first character of its role
    descriptor into the goalie/center/winger/defenseman sequence matching
    that character (the four filters are mutually exclusive, so each player
    lands in exactly one), and additionally appends every remaining
    non-goalie player to the utility sequence. -/
theorem load_roster_spec (rows : List RawRow)
    (h8 : 8 ≤ rows.length)
    (hOK : ∀ rr ∈ rows.drop 8, roleOK rr = true) :
    load_roster rows = some
      { goalies := (((rows.drop 8).map toPlayerD).filter
          (fun q => decide (q.avePoints ≠ 0 ∧ q.position = 'G'))),
        centers := (((rows.drop 8).map toPlayerD).filter
          (fun q => decide (q.avePoints ≠ 0 ∧ q.position = 'C'))),
        wingers := (((rows.drop 8).map toPlayerD).filter
          (fun q => decide (q.avePoints ≠ 0 ∧ q.position = 'W'))),
        defencemen := (((rows.drop 8).map toPlayerD).filter
          (fun q => decide (q.avePoints ≠ 0 ∧ q.position = 'D'))),
        utils := (((rows.drop 8).map toPlayerD).filter
          (fun q => decide (q.avePoints ≠ 0 ∧ q.position ≠ 'G'))) } := by
  rw [load_roster, if_neg (by omega)]
  simpa using processRows_spec (rows.drop 8) ⟨[], [], [], [], []⟩ hOK

/-- A header record of the roster source (content irrelevant, skipped). -/
def hdrRow : RawRow := ⟨"hdr", "", 0, "", 0⟩

def rowG : RawRow := ⟨"G1", "Goalie", 3000, "DDD", 10⟩

def rowC : RawRow := ⟨"C1", "Center", 3000, "AAA", 10⟩

def rowW : RawRow := ⟨"W1", "Wing", 3000, "BBB", 10⟩

def rowD : RawRow := ⟨"D1", "Def", 3000, "CCC", 10⟩

/-- A record with zero projected points, to be excluded everywhere. -/
def rowZ : RawRow := ⟨"Z0", "Center", 3000, "AAA", 0⟩

def rows0 : List RawRow :=
  List.replicate 8 hdrRow ++ [rowG, rowC, rowW, rowD, rowZ]

/-- Witness for C7: a concrete source of 8 header records and five player
    records, one of them with zero points; the loaded pools bucket the four
    active players by role code and put the three non-goalies in utils. -/
theorem load_roster_spec_witness :
    load_roster rows0 = some
      { goalies := [⟨"G1", 'G', 3000, "DDD", 10⟩],
        centers := [⟨"C1", 'C', 3000, "AAA", 10⟩],
        wingers := [⟨"W1", 'W', 3000, "BBB", 10⟩],
        defencemen := [⟨"D1", 'D', 3000, "CCC", 10⟩],
        utils := [⟨"C1", 'C', 3000, "AAA", 10⟩, ⟨"W1", 'W', 3000, "BBB", 10⟩,
                  ⟨"D1", 'D', 3000, "CCC", 10⟩] } :=
  (load_roster_spec rows0 (by decide) (by decide)).trans (by decide)

lemma dedupAux_some (rows : List (List Cell)) :
    ∀ (is : List ℕ), (∀ i ∈ is, i + 1 < rows.length) →
      dedupAux rows is = some (is.filterMap (fun i =>
        if rows.getD i [] ≠ rows.getD (i + 1) [] then some (rows.getD i [])
        else none)) := by
  intro is
  induction is with
  | nil => intro h; simp [dedupAux]
  | cons i is ih =>
    intro h
    have hi : i + 1 < rows.length := h i (List.mem_cons_self _ _)
    have h1 : rows[i]? = some (rows.getD i []) := by
      rw [List.getElem?_eq_getElem (by omega), List.getD_eq_getElem rows [] (by omega)]
    have h2 : rows[i + 1]? = some (rows.getD (i + 1) []) := by
      rw [List.getElem?_eq_getElem (by omega), List.getD_eq_getElem rows [] (by omega)]
    simp only [dedupAux, Option.bind_eq_bind, h1, h2, Option.some_bind,
      ih (fun j hj => h j (List.mem_cons_of_mem _ hj)), List.filterMap_cons]
    by_cases hne : rows.getD i [] ≠ rows.getD (i + 1) []
    · rw [if_pos hne, if_pos hne]
    · rw [if_neg hne, if_neg hne]

/-- C9: with at least num_lineups rows available, the dedup pass of
    save_file keeps exactly the rows at the indices 0 to num_lineups - 2
    that differ from their immediate successor: row i is dropped precisely
    when it equals row i + 1, the comparison is adjacent-only, and the last
    of the num_lineups rows never appears through its own index. -/
theorem save_dedup_spec (num : ℕ) (lineups : List (List Entry))
    (h : num ≤ lineups.length) :
    save_dedup num lineups = some ((List.range (num - 1)).filterMap (fun i =>
      if (trimmedRows lineups).getD i [] ≠ (trimmedRows lineups).getD (i + 1) []
      then some ((trimmedRows lineups).getD i []) else none)) := by
  rw [save_dedup]
  apply dedupAux_some
  intro i hi
  rw [List.mem_range] at hi
  have hlen : (trimmedRows lineups).length = lineups.length := by
    simp [trimmedRows]
  omega

/-- Witness for C9: three rows, the first two identical; row 0 is dropped as
    a duplicate of row 1, row 1 is kept, and the last row is dropped even
    though it is unique. -/
theorem save_dedup_spec_witness :
    save_dedup 3 [lineup0full, lineup0full, lineup0] =
      some [lineup0full.map toCell] :=
  (save_dedup_spec 3 [lineup0full, lineup0full, lineup0] (by decide)).trans
    (by decide)

lemma dedupAux_none (rows : List (List Cell)) :
    ∀ (is : List ℕ) (i : ℕ), i ∈ is → rows.length ≤ i + 1 →
      dedupAux rows is = none := by
  intro is
  induction is with
  | nil => intro i hi; simp at hi
  | cons j js ih =>
    intro i hi hlen
    rcases List.mem_cons.mp hi with rfl | hi'
    · have h2 : rows[i + 1]? = none := List.getElem?_eq_none hlen
      cases h1 : rows[i]? with
      | none => simp [dedupAux, h1]
      | some a => simp [dedupAux, h1, h2]
    · have hrec := ih i hi' hlen
      cases h1 : rows[j]? with
      | none => simp [dedupAux, h1]
      | some a =>
        cases h2 : rows[j + 1]? with
        | none => simp [dedupAux, h1, h2]
        | some b => simp [dedupAux, h1, h2, hrec]

/-- C10: when the population holds fewer than num_lineups lineups (and
    num_lineups is at least 2, as in any real configuration), the dedup loop
    of save_file indexes lineups[i+1] for an i up to num_lineups - 2 that is
    outside the population, and the run fails with the modelled IndexError:
    the out-of-bounds branch is reachable at the public interface. -/
theorem save_dedup_oob (num : ℕ) (lineups : List (List Entry))
    (hn : 2 ≤ num) (hlt : lineups.length < num) :
    save_dedup num lineups = none := by
  rw [save_dedup]
  have hlen : (trimmedRows lineups).length = lineups.length := by
    simp [trimmedRows]
  exact dedupAux_none _ _ (num - 2) (by rw [List.mem_range]; omega) (by omega)

/-- Witness for C10: a population of 10 lineups (one completed round) with
    the default num_lineups = 100 makes save_file fail. -/
theorem save_dedup_oob_witness :
    save_dedup 100 (List.replicate 10 lineup0full) = none :=
  save_dedup_oob 100 (List.replicate 10 lineup0full) (by decide) (by decide)

end GeneticNHL
